import Mathlib

/-!
# Verification of `pr-utils` — `create-staging-pr`

A shallow embedding of `createStagingPR` (src/src/index.ts).  External
collaborators (git, the GitHub API, the JS `Date` parser and the JS regex
engine) are modelled as an explicit environment `GitEnv`; every observable
call the script makes is recorded in a trace of `Event`s, and the final
result of the run is an `Outcome`.  Pure computations of the script
(string splitting, commit-line parsing, deduplication, sorting, branch
naming) are translated directly from the TypeScript source.

JS semantics choices made by the embedding:
* `s.split(c)` for a one-character separator is `jsSplit c s` below
  (`"".split(c) = [""]`, separators at the ends produce empty fields);
* `s.replace(pat, rep)` with a string pattern replaces only the *first*
  occurrence — `jsReplaceFirst`;
* a `string | undefined` option field is `Option String`, and JS
  truthiness (`undefined` and `""` are falsy) is `truthy`;
* `new Date(str).getTime()` is abstracted by the environment field
  `dateVal : String → Int`;
* simple-git's `git.log({from, to})` defaults to the *symmetric*
  three-dot range `from...to`, so the structured log path consults a
  separate oracle `logRangeSym` and is traced as a distinct event;
* `Array.prototype.sort` is stable, so it is `List.mergeSort`.
-/

/-- A commit as git itself knows it (the fields the script's
`--format=%H|%s|%an|%ad|%d` log format prints, in that order). -/
structure GitCommit where
  hash : String
  subject : String
  author : String
  date : String
  refs : String
deriving Repr, DecidableEq

/-- The record the script builds per commit (fields of the object literal
at src/src/index.ts lines 219-226, plus the originating branch tag). -/
structure CommitRecord where
  hash : String
  message : String
  author_name : String
  date : String
  refs : String
  branch : String
deriving Repr, DecidableEq

/-- The CLI options of `create-staging-pr` (interface
`CreateStagingPROptions`).  String options that may be absent are
`Option String`; boolean flags absent on the CLI are `false`. -/
structure CreateStagingPROptions where
  featureBranch : Option String
  stagingBranch : String
  developBranch : String
  dryRun : Bool
  includeMerges : Bool
  firstParent : Bool
  includeSubBranches : Bool
  subBranchPattern : Option String
  branches : Option String
deriving Repr, DecidableEq

/-- The external world: git's answers, the JS date parser, the JS regex
engine, the GitHub token/remote and the clock, all as oracles.
`logRange base tip noMerges firstParent` is what the two-dot
`git log base..tip` returns (with the merge/first-parent filters
applied); `logRangeSym base tip` is what simple-git's
`git.log({from: base, to: tip})` returns — its `symmetric` option
defaults to true, so git is given the three-dot `base...tip` (the
symmetric difference, which can also hold commits reachable only from
`base`).  An `Except.error` models the thrown exception for an unknown
ref. -/
structure GitEnv where
  currentBranch : String
  isClean : Bool
  allBranches : List String
  remoteBranches : List String
  logRange : String → String → Bool → Bool → Except String (List GitCommit)
  logRangeSym : String → String → Except String (List GitCommit)
  dateVal : String → Int
  now : Nat
  githubToken : Option String
  remoteUrl : Option String
  parseRepoUrl : String → Option (String × String)
  regexTest : String → String → Bool
  cherryPickOk : String → Bool
  prNumber : Nat

/-- Observable calls made during a run. -/
inductive Event where
  | currentBranchQuery
  | statusCheck
  | fetch
  | branchListQuery
  | logQuery (base tip : String)
  | logQuerySym (base tip : String)
  | warn (msg : String)
  | display (hash message : String)
  | createBranch (name base : String)
  | cherryPick (hash : String)
  | push (name : String)
  | createPR (head base : String)
deriving Repr, DecidableEq

/-- The terminal result of a run (each early `process.exit(1)` of the
script is one error constructor; the degraded no-PR endings and the
successful PR ending are separate). -/
inductive Outcome where
  | configurationError
  | dirtyWorkingTree
  | branchNotFound (name : String)
  | emptyChangeset (feature staging : String)
  | cherryPickConflict (hash : String)
  | dryRunDone
  | manualPRNeeded (name : String)
  | prCreated (name : String) (number : Nat)
deriving Repr, DecidableEq

/-- JS truthiness of a `string | undefined` value: `undefined` and `""`
are falsy. -/
def truthy : Option String → Option String
  | none => none
  | some s => if s = "" then none else some s

/-- JS `String.prototype.split` with a one-character separator, on char
lists: `"".split(c) = [""]`, and each separator ends a field. -/
def splitListChar (sep : Char) : List Char → List (List Char)
  | [] => [[]]
  | c :: cs =>
    if c = sep then [] :: splitListChar sep cs
    else
      match splitListChar sep cs with
      | [] => [[c]]
      | h :: t => (c :: h) :: t

/-- JS `s.split(c)` for a one-character separator `c`. -/
def jsSplit (sep : Char) (s : String) : List String :=
  (splitListChar sep s.data).map String.mk

/-- Replace the first occurrence of `pat` in a char list by `rep`
(leftmost match, as JS `String.prototype.replace` with a string pattern). -/
def replaceFirstChars (pat rep : List Char) : List Char → List Char
  | [] => []
  | c :: cs =>
    if pat.isPrefixOf (c :: cs) then rep ++ (c :: cs).drop pat.length
    else c :: replaceFirstChars pat rep cs

/-- JS `s.replace(pat, rep)` with a string pattern: only the first
occurrence of `pat` is replaced. -/
def jsReplaceFirst (s pat rep : String) : String :=
  String.mk (replaceFirstChars pat.data rep.data s.data)

/-- Drop leading whitespace from a char list. -/
def trimLeftChars : List Char → List Char
  | [] => []
  | c :: cs => if c.isWhitespace then trimLeftChars cs else c :: cs

/-- JS `s.trim()`: strip whitespace from both ends. -/
def jsTrim (s : String) : String :=
  String.mk ((trimLeftChars (trimLeftChars s.data.reverse).reverse))

/-- JS `s.startsWith(t)`. -/
def jsStartsWith (s t : String) : Bool :=
  t.data.isPrefixOf s.data

/-- `options.branches.split(',').map(b => b.trim())` (lines 72 and 146). -/
def splitTrim (s : String) : List String :=
  (jsSplit ',' s).map (fun b => jsTrim b)

/-- The primary feature branch after the resolution step (lines 71-83):
an explicit `--branches` list fills a missing `--feature-branch` with its
first entry; otherwise a missing `--feature-branch` defaults to the
currently checked-out branch. -/
def resolvedFeatureBranch (env : GitEnv) (opts : CreateStagingPROptions) : String :=
  match truthy opts.branches with
  | some bs =>
    match truthy opts.featureBranch with
    | some f => f
    | none => (splitTrim bs).headD ""
  | none =>
    match truthy opts.featureBranch with
    | some f => f
    | none => env.currentBranch

/-- Existence check for one branch (lines 116-124): local name or
`remotes/origin/` name. -/
def branchExists (env : GitEnv) (name : String) : Bool :=
  env.allBranches.contains name || env.allBranches.contains ("remotes/origin/" ++ name)

/-- Sub-branch discovery (lines 150-174): remote branches, stripped of
`origin/`, that differ from the feature branch and pass either the
plain-text pattern check or the glob-as-regex check. -/
def subBranchesOf (env : GitEnv) (opts : CreateStagingPROptions) (feature : String) :
    List String :=
  let pattern := (truthy opts.subBranchPattern).getD (feature ++ "*")
  ((env.remoteBranches.filter (fun b => jsStartsWith b "origin/")).map
      (fun b => jsReplaceFirst b "origin/" "")).filter
    (fun b =>
      b ≠ feature ∧
        (jsStartsWith b (jsReplaceFirst pattern "*" "") = true ∨
          env.regexTest (jsReplaceFirst pattern "*" ".*") b = true))

/-- The ordered branch list the collector iterates over (lines 141-177):
the explicit list verbatim (trimmed) when given, else the feature branch
followed by discovered sub-branches. -/
def branchesToProcess (env : GitEnv) (opts : CreateStagingPROptions) (feature : String) :
    List String :=
  match truthy opts.branches with
  | some bs => splitTrim bs
  | none =>
    feature :: (if opts.includeSubBranches then subBranchesOf env opts feature else [])

/-- Whether `additionalArgs` is nonempty (lines 184-192), i.e. whether
the raw `--format` log path is taken instead of `git.log`. -/
def rawPath (opts : CreateStagingPROptions) : Bool :=
  !opts.includeMerges || opts.firstParent

/-- One line of `git log --format=%H|%s|%an|%ad|%d` output for a commit. -/
def formatLine (c : GitCommit) : String :=
  c.hash ++ "|" ++ c.subject ++ "|" ++ c.author ++ "|" ++ c.date ++ "|" ++ c.refs

/-- The whole raw log output for a range. -/
def rawLogOutput (cs : List GitCommit) : String :=
  String.intercalate "\n" (cs.map formatLine)

/-- The script's parse of one raw log line (lines 217-227):
`const [hash, message, author, date, refs] = line.split('|')`, missing or
empty fields becoming `''`. -/
def parseLine (branch line : String) : CommitRecord :=
  let parts := jsSplit '|' line
  { hash := parts.getD 0 ""
  , message := parts.getD 1 ""
  , author_name := parts.getD 2 ""
  , date := parts.getD 3 ""
  , refs := parts.getD 4 ""
  , branch := branch }

/-- `rawOutput.trim().split('\n').filter(line => line.trim()).map(...)`
(lines 213-227). -/
def parseRawLog (branch raw : String) : List CommitRecord :=
  ((jsSplit '\n' (jsTrim raw)).filter (fun l => jsTrim l ≠ "")).map (parseLine branch)

/-- The record built in the `git.log({from, to})` path (lines 231-238): the
structured log fields plus the branch tag. -/
def structuredRecord (branch : String) (c : GitCommit) : CommitRecord :=
  { hash := c.hash
  , message := c.subject
  , author_name := c.author
  , date := c.date
  , refs := c.refs
  , branch := branch }

/-- One branch's collection attempt (lines 198-239): the raw `--format`
path runs the two-dot `git log origin/<staging>..origin/<branch>` and
re-parses the printed lines; the structured path calls simple-git's
`git.log({from, to})`, whose `symmetric` option defaults to true, so git
actually receives the three-dot `origin/<staging>...origin/<branch>`
(oracle `logRangeSym`). -/
def branchLog (env : GitEnv) (opts : CreateStagingPROptions) (staging branch : String) :
    Except String (List CommitRecord) :=
  if rawPath opts then
    match env.logRange ("origin/" ++ staging) ("origin/" ++ branch)
        (!opts.includeMerges) opts.firstParent with
    | Except.ok cs => Except.ok (parseRawLog branch (rawLogOutput cs))
    | Except.error e => Except.error e
  else
    match env.logRangeSym ("origin/" ++ staging) ("origin/" ++ branch) with
    | Except.ok cs => Except.ok (cs.map (structuredRecord branch))
    | Except.error e => Except.error e

/-- The duplicate-skipping push loop (lines 242-247): `acc` is
`allCommits`, `seen` is the `commitHashes` set. -/
def addUnique (acc : List CommitRecord) (seen : List String) :
    List CommitRecord → List CommitRecord × List String
  | [] => (acc, seen)
  | c :: cs =>
    if seen.contains c.hash then addUnique acc seen cs
    else addUnique (acc ++ [c]) (seen ++ [c.hash]) cs

/-- The warning printed when one branch's log fails (line 249). -/
def warnMsg (branch err : String) : String :=
  "Warning: Could not get commits from branch " ++ branch ++ ": " ++ err

/-- The log-query event of the path the collector takes for one branch:
two-dot in the raw `--format` path, symmetric three-dot in the
structured `git.log({from, to})` path. -/
def logEvent (opts : CreateStagingPROptions) (staging b : String) : Event :=
  if rawPath opts then Event.logQuery ("origin/" ++ staging) ("origin/" ++ b)
  else Event.logQuerySym ("origin/" ++ staging) ("origin/" ++ b)

/-- The per-branch collection loop (lines 198-251): query each branch in
order; on success merge with deduplication, on failure record a warning
and continue. -/
def collectW (env : GitEnv) (opts : CreateStagingPROptions) (staging : String) :
    List String → List CommitRecord → List String →
      (List CommitRecord × List String) × List Event
  | [], acc, seen => ((acc, seen), [])
  | b :: bs, acc, seen =>
    match branchLog env opts staging b with
    | Except.ok cs =>
      let st := addUnique acc seen cs
      let r := collectW env opts staging bs st.1 st.2
      (r.1, logEvent opts staging b :: r.2)
    | Except.error e =>
      let r := collectW env opts staging bs acc seen
      (r.1, logEvent opts staging b :: Event.warn (warnMsg b e) :: r.2)

/-- The collector, started from empty accumulators. -/
def collectB (env : GitEnv) (opts : CreateStagingPROptions) (staging : String)
    (bs : List String) : List CommitRecord × List Event :=
  let r := collectW env opts staging bs [] []
  (r.1.1, r.2)

/-- All per-branch range results in processing order, failed branches
contributing nothing — the stream of records the dedup loop consumes. -/
def gatheredCommits (env : GitEnv) (opts : CreateStagingPROptions) (staging : String)
    (bs : List String) : List CommitRecord :=
  (bs.map (fun b => ((branchLog env opts staging b).toOption.getD []))).flatten

/-- The sort key of a record (lines 254-257):
`new Date(a.date || a.author_date || 0).getTime()`; neither path ever sets
`author_date`, so an empty date string falls through to epoch 0. -/
def sortKey (env : GitEnv) (c : CommitRecord) : Int :=
  if c.date = "" then 0 else env.dateVal c.date

/-- The stable ascending sort by date (lines 253-258). -/
def sortCommits (env : GitEnv) (l : List CommitRecord) : List CommitRecord :=
  l.mergeSort (fun a b => sortKey env a ≤ sortKey env b)

/-- The merged, deduplicated (pre-sort) commit list of a run. -/
def mergedCommits (env : GitEnv) (opts : CreateStagingPROptions) : List CommitRecord :=
  (addUnique [] []
    (gatheredCommits env opts opts.stagingBranch
      (branchesToProcess env opts (resolvedFeatureBranch env opts)))).1

/-- The final Changeset of a run: the merged commits sorted by date. -/
def changesetOf (env : GitEnv) (opts : CreateStagingPROptions) : List CommitRecord :=
  sortCommits env (mergedCommits env opts)

/-- The created branch name (line 292):
`staging-pr-${featureBranch.replace('/', '-')}-${Date.now()}`. -/
def stagingPRBranch (env : GitEnv) (feature : String) : String :=
  "staging-pr-" ++ jsReplaceFirst feature "/" "-" ++ "-" ++ toString env.now

/-- The cherry-pick loop (lines 309-324): pick in order, stop at the
first failure; every attempted pick (the failing one included) is a call. -/
def cherryPickAll (env : GitEnv) : List CommitRecord → List Event × Option String
  | [] => ([], none)
  | c :: cs =>
    if env.cherryPickOk c.hash then
      let r := cherryPickAll env cs
      (Event.cherryPick c.hash :: r.1, r.2)
    else ([Event.cherryPick c.hash], some c.hash)

/-- Everything from the display of the changeset on (lines 274-398):
display newest-first from a reversed copy, stop in dry-run mode, else
create the branch, cherry-pick in stored order, push, and create the PR
when a token is present and the remote URL parses. -/
def publish (env : GitEnv) (opts : CreateStagingPROptions) (feature : String)
    (cs : List CommitRecord) : Outcome × List Event :=
  let displayEvs := cs.reverse.map (fun c => Event.display c.hash c.message)
  if opts.dryRun then (Outcome.dryRunDone, displayEvs)
  else
    let name := stagingPRBranch env feature
    let evs1 := displayEvs ++ [Event.createBranch name ("origin/" ++ opts.stagingBranch)]
    match cherryPickAll env cs with
    | (pickEvs, some failed) => (Outcome.cherryPickConflict failed, evs1 ++ pickEvs)
    | (pickEvs, none) =>
      let evs2 := evs1 ++ pickEvs ++ [Event.push name]
      match env.githubToken with
      | none => (Outcome.manualPRNeeded name, evs2)
      | some _ =>
        match env.remoteUrl.bind env.parseRepoUrl with
        | none => (Outcome.manualPRNeeded name, evs2)
        | some _ =>
          (Outcome.prCreated name env.prNumber,
            evs2 ++ [Event.createPR name opts.stagingBranch])

/-- The collection stage and everything after it (lines 179-398). -/
def afterChecks (env : GitEnv) (opts : CreateStagingPROptions) (feature : String) :
    Outcome × List Event :=
  let bs := branchesToProcess env opts feature
  let col := collectB env opts opts.stagingBranch bs
  let cs := sortCommits env col.1
  if cs.length = 0 then (Outcome.emptyChangeset feature opts.stagingBranch, col.2)
  else
    let tail := publish env opts feature cs
    (tail.1, col.2 ++ tail.2)

/-- The trace of the status / fetch / branch-listing calls (lines 97-114). -/
def preEvents : List Event :=
  [Event.statusCheck, Event.fetch, Event.branchListQuery]

/-- The events of the branch-resolution step: `git.branch()` is called
only when neither `--branches` nor `--feature-branch` is given (line 80). -/
def resolutionEvents (opts : CreateStagingPROptions) : List Event :=
  if (truthy opts.branches).isNone ∧ (truthy opts.featureBranch).isNone then
    [Event.currentBranchQuery]
  else []

/-- Whether the run gets past the guard, cleanliness and existence checks
into the collection stage. -/
def frontOK (env : GitEnv) (opts : CreateStagingPROptions) : Bool :=
  let f := resolvedFeatureBranch env opts
  !(f == opts.stagingBranch || f == opts.developBranch) && env.isClean &&
    branchExists env f && branchExists env opts.stagingBranch &&
    branchExists env opts.developBranch

/-- The whole `createStagingPR` run (lines 65-403): branch resolution,
the feature/staging/develop guard, working-tree check, fetch,
branch-existence checks, then collection and publication. -/
def run (env : GitEnv) (opts : CreateStagingPROptions) : Outcome × List Event :=
  let resEvs := resolutionEvents opts
  let f := resolvedFeatureBranch env opts
  if f == opts.stagingBranch || f == opts.developBranch then
    (Outcome.configurationError, resEvs)
  else if !env.isClean then
    (Outcome.dirtyWorkingTree, resEvs ++ [Event.statusCheck])
  else if !branchExists env f then
    (Outcome.branchNotFound f, resEvs ++ preEvents)
  else if !branchExists env opts.stagingBranch then
    (Outcome.branchNotFound opts.stagingBranch, resEvs ++ preEvents)
  else if !branchExists env opts.developBranch then
    (Outcome.branchNotFound opts.developBranch, resEvs ++ preEvents)
  else
    let tail := afterChecks env opts f
    (tail.1, resEvs ++ preEvents ++ tail.2)

/-- Projection of a trace to its two-dot log queries, as (base, tip). -/
def logQueries (evs : List Event) : List (String × String) :=
  evs.filterMap (fun e =>
    match e with
    | Event.logQuery b t => some (b, t)
    | _ => none)

/-- Projection of a trace to its symmetric three-dot log queries, as
(base, tip). -/
def symQueries (evs : List Event) : List (String × String) :=
  evs.filterMap (fun e =>
    match e with
    | Event.logQuerySym b t => some (b, t)
    | _ => none)

/-- Projection of a trace to the displayed commit hashes, in order. -/
def displayedHashes (evs : List Event) : List String :=
  evs.filterMap (fun e =>
    match e with
    | Event.display h _ => some h
    | _ => none)

/-- Projection of a trace to the cherry-picked hashes, in order. -/
def pickedHashes (evs : List Event) : List String :=
  evs.filterMap (fun e =>
    match e with
    | Event.cherryPick h => some h
    | _ => none)

/-- Events that create or publish state: branch creation, cherry-picking,
pushing, PR creation. -/
def isPublishEvent : Event → Bool
  | Event.createBranch _ _ => true
  | Event.cherryPick _ => true
  | Event.push _ => true
  | Event.createPR _ _ => true
  | _ => false

/-- Network or branch-creation events (for the C7 guard-ordering claim). -/
def isNetworkOrCreate (e : Event) : Bool :=
  e == Event.fetch || isPublishEvent e

/-! ## Concrete test fixtures (used by the witness theorems) -/

/-- A concrete commit (authored first). -/
def gc1 : GitCommit :=
  { hash := "a1", subject := "first", author := "Alice", date := "d1", refs := "" }

/-- A concrete commit (authored second). -/
def gc2 : GitCommit :=
  { hash := "b2", subject := "second", author := "Bob", date := "d2", refs := "" }

/-- A concrete commit (authored third). -/
def gc3 : GitCommit :=
  { hash := "c3", subject := "third", author := "Cara", date := "d3", refs := "" }

/-- A commit reachable only from staging — the symmetric three-dot range
returns it, the two-dot range does not. -/
def gcS : GitCommit :=
  { hash := "s9", subject := "staging only", author := "Sam", date := "d0", refs := "" }

/-- A concrete environment: `feat/x` and `feat/y` share the commit `a1`,
`nosuch` fails, clean tree, token and parseable remote present.  The
symmetric oracle for `feat/x` additionally returns the staging-only
commit `s9`, as real three-dot output would. -/
def testEnv : GitEnv :=
  { currentBranch := "feat/x"
  , isClean := true
  , allBranches := ["feat/x", "staging", "develop", "remotes/origin/feat/x",
      "remotes/origin/staging", "remotes/origin/develop", "remotes/origin/feat/y"]
  , remoteBranches := ["origin/feat/x", "origin/feat/y"]
  , logRange := fun _ tip _ _ =>
      if tip = "origin/feat/x" then Except.ok [gc2, gc1]
      else if tip = "origin/feat/y" then Except.ok [gc1, gc3]
      else Except.error "bad revision"
  , logRangeSym := fun _ tip =>
      if tip = "origin/feat/x" then Except.ok [gc2, gc1, gcS]
      else if tip = "origin/feat/y" then Except.ok [gc1, gc3]
      else Except.error "bad revision"
  , dateVal := fun s => if s = "d1" then 1 else if s = "d2" then 2
      else if s = "d3" then 3 else 0
  , now := 17
  , githubToken := some "tok"
  , remoteUrl := some "git@github.com:owner/repo.git"
  , parseRepoUrl := fun _ => some ("owner", "repo.git")
  , regexTest := fun _ _ => false
  , cherryPickOk := fun _ => true
  , prNumber := 42 }

/-- Options: explicit branch list with whitespace, one failing entry. -/
def optsBranches : CreateStagingPROptions :=
  { featureBranch := none
  , stagingBranch := "staging"
  , developBranch := "develop"
  , dryRun := false
  , includeMerges := false
  , firstParent := false
  , includeSubBranches := false
  , subBranchPattern := none
  , branches := some "feat/x, feat/y, nosuch" }

/-- Options: plain feature-branch invocation with default flags. -/
def optsMain : CreateStagingPROptions :=
  { featureBranch := some "feat/x"
  , stagingBranch := "staging"
  , developBranch := "develop"
  , dryRun := false
  , includeMerges := false
  , firstParent := false
  , includeSubBranches := false
  , subBranchPattern := none
  , branches := none }

/-- Options: dry-run variant of `optsMain`. -/
def optsDry : CreateStagingPROptions :=
  { optsMain with dryRun := true }

/-- Options: feature branch equal to the staging branch (guard trip). -/
def optsGuard : CreateStagingPROptions :=
  { optsMain with featureBranch := some "staging" }

/-- Options: both an explicit list and an explicit feature branch. -/
def optsBoth : CreateStagingPROptions :=
  { optsMain with featureBranch := some "branchC", branches := some "branchA, branchB" }

/-- Options: merge commits included (and first-parent unset), so the
structured `git.log({from, to})` path is taken. -/
def optsMerges : CreateStagingPROptions :=
  { optsMain with includeMerges := true }


/-- A second environment differing from `testEnv` only in the clock. -/
def envNow18 : GitEnv :=
  { testEnv with now := 18 }

/-- The parsed record of `gc1` as first seen (tagged `feat/x`). -/
def recA1 : CommitRecord :=
  { hash := "a1", message := "first", author_name := "Alice", date := "d1"
  , refs := "", branch := "feat/x" }

/-- The parsed record of `gc2` (tagged `feat/x`). -/
def recB2 : CommitRecord :=
  { hash := "b2", message := "second", author_name := "Bob", date := "d2"
  , refs := "", branch := "feat/x" }

/-- The parsed record of `gc3` (tagged `feat/y`). -/
def recC3 : CommitRecord :=
  { hash := "c3", message := "third", author_name := "Cara", date := "d3"
  , refs := "", branch := "feat/y" }

/-! ## General lemmas about the embedding -/

/-- The date comparator is transitive. -/
theorem sortLe_trans (env : GitEnv) (a b c : CommitRecord)
    (h1 : (decide (sortKey env a ≤ sortKey env b)) = true)
    (h2 : (decide (sortKey env b ≤ sortKey env c)) = true) :
    (decide (sortKey env a ≤ sortKey env c)) = true := by
  simp only [decide_eq_true_eq] at *
  omega

/-- The date comparator is total. -/
theorem sortLe_total (env : GitEnv) (a b : CommitRecord) :
    ((decide (sortKey env a ≤ sortKey env b)) ||
      (decide (sortKey env b ≤ sortKey env a))) = true := by
  simp only [Bool.or_eq_true, decide_eq_true_eq]
  omega

/-- A run that passes the guard, cleanliness and existence checks is the
front trace followed by the collection-and-publication stage. -/
theorem run_of_frontOK (env : GitEnv) (opts : CreateStagingPROptions)
    (h : frontOK env opts = true) :
    run env opts =
      ((afterChecks env opts (resolvedFeatureBranch env opts)).1,
        resolutionEvents opts ++ preEvents ++
          (afterChecks env opts (resolvedFeatureBranch env opts)).2) := by
  unfold frontOK at h
  simp only [Bool.and_eq_true, Bool.not_eq_true'] at h
  obtain ⟨⟨⟨⟨h1, h2⟩, h3⟩, h4⟩, h5⟩ := h
  unfold run
  simp [h1, h2, h3, h4, h5]

/-- The resolution step records no network, publish or log event. -/
theorem resolutionEvents_filter (opts : CreateStagingPROptions)
    (p : Event → Bool) (hp : p Event.currentBranchQuery = false) :
    (resolutionEvents opts).filter p = [] := by
  unfold resolutionEvents
  split
  · simp [hp]
  · rfl

/-- Claim C7: if the primary feature branch equals the staging branch or
the develop branch, the run terminates with a ConfigurationError, and no
network call (fetch) and no branch-creation, push or PR call is ever made
(the trace holds at most the local current-branch query). -/
theorem C7_guard_first (env : GitEnv) (opts : CreateStagingPROptions)
    (h : resolvedFeatureBranch env opts = opts.stagingBranch ∨
      resolvedFeatureBranch env opts = opts.developBranch) :
    (run env opts).1 = Outcome.configurationError ∧
      (run env opts).2.filter isNetworkOrCreate = [] := by
  have hc : (resolvedFeatureBranch env opts == opts.stagingBranch ||
      resolvedFeatureBranch env opts == opts.developBranch) = true := by
    rcases h with h | h <;> simp [h]
  unfold run
  simp only [hc, if_true]
  exact ⟨trivial, resolutionEvents_filter opts _ rfl⟩

/-- Witness for C7 at a concrete input: the feature branch is literally
the staging branch. -/
theorem C7_guard_first_witness :
    (resolvedFeatureBranch testEnv optsGuard = optsGuard.stagingBranch ∨
      resolvedFeatureBranch testEnv optsGuard = optsGuard.developBranch) ∧
      ((run testEnv optsGuard).1 = Outcome.configurationError ∧
        (run testEnv optsGuard).2.filter isNetworkOrCreate = []) :=
  ⟨Or.inl (by decide), C7_guard_first testEnv optsGuard (Or.inl (by decide))⟩

/-- `addUnique` processes a concatenation as two successive passes. -/
theorem addUnique_append (xs ys : List CommitRecord) :
    ∀ acc seen, addUnique acc seen (xs ++ ys) =
      addUnique (addUnique acc seen xs).1 (addUnique acc seen xs).2 ys := by
  induction xs with
  | nil => intro acc seen; rfl
  | cons c cs ih =>
    intro acc seen
    by_cases h : c.hash ∈ seen <;> simp [addUnique, h, ih]

/-- The commit/seen state of the collection loop is `addUnique` applied to
the concatenation of the per-branch results. -/
theorem collectW_commits (env : GitEnv) (opts : CreateStagingPROptions)
    (staging : String) :
    ∀ (bs : List String) (acc : List CommitRecord) (seen : List String),
      (collectW env opts staging bs acc seen).1 =
        addUnique acc seen (gatheredCommits env opts staging bs) := by
  intro bs
  induction bs with
  | nil => intro acc seen; rfl
  | cons b bs ih =>
    intro acc seen
    cases hbl : branchLog env opts staging b with
    | ok cs =>
      simp [collectW, hbl, ih, gatheredCommits, addUnique_append, Except.toOption]
    | error e =>
      simp [collectW, hbl, ih, gatheredCommits, Except.toOption]

/-- `logQueries` on a cons, by event shape. -/
theorem logQueries_cons (e : Event) (evs : List Event) :
    logQueries (e :: evs) =
      (match e with
        | Event.logQuery b t => [(b, t)]
        | _ => []) ++ logQueries evs := by
  cases e <;> simp [logQueries, List.filterMap_cons]

/-- `logQueries` distributes over append. -/
theorem logQueries_append (a b : List Event) :
    logQueries (a ++ b) = logQueries a ++ logQueries b := by
  simp [logQueries]

/-- `displayedHashes` on a cons, by event shape. -/
theorem displayedHashes_cons (e : Event) (evs : List Event) :
    displayedHashes (e :: evs) =
      (match e with
        | Event.display h _ => [h]
        | _ => []) ++ displayedHashes evs := by
  cases e <;> simp [displayedHashes, List.filterMap_cons]

/-- `displayedHashes` distributes over append. -/
theorem displayedHashes_append (a b : List Event) :
    displayedHashes (a ++ b) = displayedHashes a ++ displayedHashes b := by
  simp [displayedHashes]

/-- `pickedHashes` on a cons, by event shape. -/
theorem pickedHashes_cons (e : Event) (evs : List Event) :
    pickedHashes (e :: evs) =
      (match e with
        | Event.cherryPick h => [h]
        | _ => []) ++ pickedHashes evs := by
  cases e <;> simp [pickedHashes, List.filterMap_cons]

/-- `pickedHashes` distributes over append. -/
theorem pickedHashes_append (a b : List Event) :
    pickedHashes (a ++ b) = pickedHashes a ++ pickedHashes b := by
  simp [pickedHashes]

/-- `symQueries` on a cons, by event shape. -/
theorem symQueries_cons (e : Event) (evs : List Event) :
    symQueries (e :: evs) =
      (match e with
        | Event.logQuerySym b t => [(b, t)]
        | _ => []) ++ symQueries evs := by
  cases e <;> simp [symQueries, List.filterMap_cons]

/-- `symQueries` distributes over append. -/
theorem symQueries_append (a b : List Event) :
    symQueries (a ++ b) = symQueries a ++ symQueries b := by
  simp [symQueries]

/-- `symQueries` of the empty trace. -/
theorem symQueries_nil : symQueries [] = [] := rfl

/-- In the raw `--format` path, the collection loop's two-dot queries are
one `origin/<staging>..origin/<branch>` per branch, in branch order. -/
theorem collectW_logQueries_raw (env : GitEnv) (opts : CreateStagingPROptions)
    (staging : String) (h : rawPath opts = true) :
    ∀ (bs : List String) (acc : List CommitRecord) (seen : List String),
      logQueries (collectW env opts staging bs acc seen).2 =
        bs.map (fun b => ("origin/" ++ staging, "origin/" ++ b)) := by
  have hle : ∀ b, logEvent opts staging b =
      Event.logQuery ("origin/" ++ staging) ("origin/" ++ b) := by
    intro b; simp [logEvent, h]
  intro bs
  induction bs with
  | nil => intro acc seen; rfl
  | cons b bs ih =>
    intro acc seen
    cases hbl : branchLog env opts staging b with
    | ok cs => simp [collectW, hbl, hle, logQueries_cons, ih]
    | error e => simp [collectW, hbl, hle, logQueries_cons, ih]

/-- In the raw `--format` path, the collection loop issues no symmetric
query. -/
theorem collectW_symQueries_raw (env : GitEnv) (opts : CreateStagingPROptions)
    (staging : String) (h : rawPath opts = true) :
    ∀ (bs : List String) (acc : List CommitRecord) (seen : List String),
      symQueries (collectW env opts staging bs acc seen).2 = [] := by
  have hle : ∀ b, logEvent opts staging b =
      Event.logQuery ("origin/" ++ staging) ("origin/" ++ b) := by
    intro b; simp [logEvent, h]
  intro bs
  induction bs with
  | nil => intro acc seen; rfl
  | cons b bs ih =>
    intro acc seen
    cases hbl : branchLog env opts staging b with
    | ok cs => simp [collectW, hbl, hle, symQueries_cons, ih]
    | error e => simp [collectW, hbl, hle, symQueries_cons, ih]

/-- In the structured `git.log({from, to})` path, the collection loop's
queries are one symmetric `origin/<staging>...origin/<branch>` per
branch, in branch order. -/
theorem collectW_symQueries_structured (env : GitEnv)
    (opts : CreateStagingPROptions) (staging : String) (h : rawPath opts = false) :
    ∀ (bs : List String) (acc : List CommitRecord) (seen : List String),
      symQueries (collectW env opts staging bs acc seen).2 =
        bs.map (fun b => ("origin/" ++ staging, "origin/" ++ b)) := by
  have hle : ∀ b, logEvent opts staging b =
      Event.logQuerySym ("origin/" ++ staging) ("origin/" ++ b) := by
    intro b; simp [logEvent, h]
  intro bs
  induction bs with
  | nil => intro acc seen; rfl
  | cons b bs ih =>
    intro acc seen
    cases hbl : branchLog env opts staging b with
    | ok cs => simp [collectW, hbl, hle, symQueries_cons, ih]
    | error e => simp [collectW, hbl, hle, symQueries_cons, ih]

/-- In the structured `git.log({from, to})` path, the collection loop
issues no two-dot query. -/
theorem collectW_logQueries_structured (env : GitEnv)
    (opts : CreateStagingPROptions) (staging : String) (h : rawPath opts = false) :
    ∀ (bs : List String) (acc : List CommitRecord) (seen : List String),
      logQueries (collectW env opts staging bs acc seen).2 = [] := by
  have hle : ∀ b, logEvent opts staging b =
      Event.logQuerySym ("origin/" ++ staging) ("origin/" ++ b) := by
    intro b; simp [logEvent, h]
  intro bs
  induction bs with
  | nil => intro acc seen; rfl
  | cons b bs ih =>
    intro acc seen
    cases hbl : branchLog env opts staging b with
    | ok cs => simp [collectW, hbl, hle, logQueries_cons, ih]
    | error e => simp [collectW, hbl, hle, logQueries_cons, ih]

/-- A failing branch leaves its warning in the collection trace. -/
theorem collectW_warn (env : GitEnv) (opts : CreateStagingPROptions)
    (staging : String) :
    ∀ (bs : List String) (acc : List CommitRecord) (seen : List String)
      (b : String) (e : String), b ∈ bs →
      branchLog env opts staging b = Except.error e →
      Event.warn (warnMsg b e) ∈ (collectW env opts staging bs acc seen).2 := by
  intro bs
  induction bs with
  | nil => intro _ _ _ _ hmem _; cases hmem
  | cons b' bs ih =>
    intro acc seen b e hmem herr
    rcases List.mem_cons.mp hmem with rfl | hmem
    · simp [collectW, herr]
    · cases hbl : branchLog env opts staging b' with
      | ok cs =>
        simp only [collectW, hbl, List.mem_cons]
        exact Or.inr (ih _ _ b e hmem herr)
      | error e' =>
        simp only [collectW, hbl, List.mem_cons]
        exact Or.inr (Or.inr (ih _ _ b e hmem herr))

/-- The collection loop emits only log queries (two-dot or symmetric)
and warnings, so any predicate false on those filters its trace to
nothing. -/
theorem collectW_filter (env : GitEnv) (opts : CreateStagingPROptions)
    (staging : String) (p : Event → Bool)
    (hq : ∀ b t, p (Event.logQuery b t) = false)
    (hqs : ∀ b t, p (Event.logQuerySym b t) = false)
    (hw : ∀ m, p (Event.warn m) = false) :
    ∀ (bs : List String) (acc : List CommitRecord) (seen : List String),
      ((collectW env opts staging bs acc seen).2).filter p = [] := by
  have hle : ∀ b, p (logEvent opts staging b) = false := by
    intro b
    unfold logEvent
    split
    · exact hq _ _
    · exact hqs _ _
  intro bs
  induction bs with
  | nil => intro acc seen; rfl
  | cons b bs ih =>
    intro acc seen
    cases hbl : branchLog env opts staging b with
    | ok cs => simp [collectW, hbl, List.filter, hle, hw, ih]
    | error e => simp [collectW, hbl, List.filter, hle, hw, ih]

/-- Every event of the cherry-pick loop is a cherry-pick call. -/
theorem cherryPickAll_events (env : GitEnv) :
    ∀ (cs : List CommitRecord) (e : Event), e ∈ (cherryPickAll env cs).1 →
      ∃ h, e = Event.cherryPick h := by
  intro cs
  induction cs with
  | nil => intro e he; cases he
  | cons c cs ih =>
    intro e he
    by_cases hok : env.cherryPickOk c.hash
    · simp [cherryPickAll, hok] at he
      rcases he with rfl | he
      · exact ⟨c.hash, rfl⟩
      · exact ih e he
    · simp [cherryPickAll, hok] at he
      exact ⟨c.hash, he⟩

/-- When every pick succeeds, the loop picks exactly the stored changeset
in its stored order. -/
theorem cherryPickAll_ok (env : GitEnv) :
    ∀ (cs : List CommitRecord), (∀ c ∈ cs, env.cherryPickOk c.hash = true) →
      cherryPickAll env cs = (cs.map (fun c => Event.cherryPick c.hash), none) := by
  intro cs
  induction cs with
  | nil => intro _; rfl
  | cons c cs ih =>
    intro h
    have hc := h c (List.mem_cons_self c cs)
    simp [cherryPickAll, hc, ih (fun d hd => h d (List.mem_cons_of_mem c hd))]

/-- The publication trace, written out branch by branch. -/
theorem publish_trace (env : GitEnv) (opts : CreateStagingPROptions)
    (f : String) (cs : List CommitRecord) :
    (publish env opts f cs).2 =
      (cs.reverse.map (fun c => Event.display c.hash c.message)) ++
        (if opts.dryRun then [] else
          Event.createBranch (stagingPRBranch env f) ("origin/" ++ opts.stagingBranch) ::
            ((cherryPickAll env cs).1 ++
              (match (cherryPickAll env cs).2 with
                | some _ => []
                | none =>
                  Event.push (stagingPRBranch env f) ::
                    (match env.githubToken with
                      | none => []
                      | some _ =>
                        match env.remoteUrl.bind env.parseRepoUrl with
                        | none => []
                        | some _ =>
                          [Event.createPR (stagingPRBranch env f) opts.stagingBranch])))) := by
  unfold publish
  by_cases hd : opts.dryRun = true
  · simp [hd]
  · simp only [Bool.not_eq_true] at hd
    rcases hcp : cherryPickAll env cs with ⟨pickEvs, r⟩
    cases r with
    | some failed => simp [hd, hcp]
    | none =>
      rcases htok : env.githubToken with _ | tok
      · simp [hd, hcp, htok]
      · rcases hurl : env.remoteUrl.bind env.parseRepoUrl with _ | pr
        · simp [hd, hcp, htok, hurl]
        · simp [hd, hcp, htok, hurl]

/-- `logQueries` of the empty trace. -/
theorem logQueries_nil : logQueries [] = [] := rfl

/-- `displayedHashes` of the empty trace. -/
theorem displayedHashes_nil : displayedHashes [] = [] := rfl

/-- `pickedHashes` of the empty trace. -/
theorem pickedHashes_nil : pickedHashes [] = [] := rfl

/-- Display events carry no log query. -/
theorem logQueries_map_display (l : List CommitRecord) :
    logQueries (l.map (fun c => Event.display c.hash c.message)) = [] := by
  induction l with
  | nil => rfl
  | cons c cs ih => simp [logQueries_cons, ih]

/-- Display events carry no cherry-pick. -/
theorem pickedHashes_map_display (l : List CommitRecord) :
    pickedHashes (l.map (fun c => Event.display c.hash c.message)) = [] := by
  induction l with
  | nil => rfl
  | cons c cs ih => simp [pickedHashes_cons, ih]

/-- The displayed hashes of a display-event list are the records' hashes. -/
theorem displayedHashes_map_display (l : List CommitRecord) :
    displayedHashes (l.map (fun c => Event.display c.hash c.message)) =
      l.map (fun c => c.hash) := by
  induction l with
  | nil => rfl
  | cons c cs ih => simp [displayedHashes_cons, ih]

/-- The picked hashes of a cherry-pick-event list are the records' hashes. -/
theorem pickedHashes_map_pick (l : List CommitRecord) :
    pickedHashes (l.map (fun c => Event.cherryPick c.hash)) =
      l.map (fun c => c.hash) := by
  induction l with
  | nil => rfl
  | cons c cs ih => simp [pickedHashes_cons, ih]

/-- Cherry-pick events carry no display. -/
theorem displayedHashes_map_pick (l : List CommitRecord) :
    displayedHashes (l.map (fun c => Event.cherryPick c.hash)) = [] := by
  induction l with
  | nil => rfl
  | cons c cs ih => simp [displayedHashes_cons, ih]

/-- `displayedHashes` commutes with `reverse`. -/
theorem displayedHashes_reverse (evs : List Event) :
    displayedHashes evs.reverse = (displayedHashes evs).reverse := by
  simp [displayedHashes, List.filterMap_reverse]

/-- `pickedHashes` commutes with `reverse`. -/
theorem pickedHashes_reverse (evs : List Event) :
    pickedHashes evs.reverse = (pickedHashes evs).reverse := by
  simp [pickedHashes, List.filterMap_reverse]

/-- The cherry-pick loop emits no log query. -/
theorem logQueries_cherryPickAll (env : GitEnv) (cs : List CommitRecord) :
    logQueries (cherryPickAll env cs).1 = [] := by
  induction cs with
  | nil => rfl
  | cons c cs ih =>
    by_cases hok : env.cherryPickOk c.hash <;>
      simp [cherryPickAll, hok, logQueries_cons, logQueries_nil, ih]

/-- The cherry-pick loop emits no display event. -/
theorem displayedHashes_cherryPickAll (env : GitEnv) (cs : List CommitRecord) :
    displayedHashes (cherryPickAll env cs).1 = [] := by
  induction cs with
  | nil => rfl
  | cons c cs ih =>
    by_cases hok : env.cherryPickOk c.hash <;>
      simp [cherryPickAll, hok, displayedHashes_cons, displayedHashes_nil, ih]

/-- The publication stage issues no two-dot log query. -/
theorem publish_logQueries (env : GitEnv) (opts : CreateStagingPROptions)
    (f : String) (cs : List CommitRecord) :
    logQueries (publish env opts f cs).2 = [] := by
  rw [publish_trace]
  rw [logQueries_append, logQueries_map_display]
  by_cases hd : opts.dryRun = true
  · simp [hd, logQueries_nil]
  · simp only [Bool.not_eq_true] at hd
    rcases h2 : (cherryPickAll env cs).2 with _ | failed
    · rcases htok : env.githubToken with _ | tok
      · simp [hd, h2, htok, logQueries_cons, logQueries_append,
          logQueries_cherryPickAll, logQueries_nil]
      · rcases hurl : env.remoteUrl.bind env.parseRepoUrl with _ | pr <;>
          simp [hd, h2, htok, hurl, logQueries_cons, logQueries_append,
            logQueries_cherryPickAll, logQueries_nil]
    · simp [hd, h2, logQueries_cons, logQueries_append,
        logQueries_cherryPickAll, logQueries_nil]

/-- Display events carry no symmetric query. -/
theorem symQueries_map_display (l : List CommitRecord) :
    symQueries (l.map (fun c => Event.display c.hash c.message)) = [] := by
  induction l with
  | nil => rfl
  | cons c cs ih => simp [symQueries_cons, ih]

/-- The cherry-pick loop emits no symmetric query. -/
theorem symQueries_cherryPickAll (env : GitEnv) (cs : List CommitRecord) :
    symQueries (cherryPickAll env cs).1 = [] := by
  induction cs with
  | nil => rfl
  | cons c cs ih =>
    by_cases hok : env.cherryPickOk c.hash <;>
      simp [cherryPickAll, hok, symQueries_cons, symQueries_nil, ih]

/-- The publication stage issues no symmetric log query. -/
theorem publish_symQueries (env : GitEnv) (opts : CreateStagingPROptions)
    (f : String) (cs : List CommitRecord) :
    symQueries (publish env opts f cs).2 = [] := by
  rw [publish_trace]
  rw [symQueries_append, symQueries_map_display]
  by_cases hd : opts.dryRun = true
  · simp [hd, symQueries_nil]
  · simp only [Bool.not_eq_true] at hd
    rcases h2 : (cherryPickAll env cs).2 with _ | failed
    · rcases htok : env.githubToken with _ | tok
      · simp [hd, h2, htok, symQueries_cons, symQueries_append,
          symQueries_cherryPickAll, symQueries_nil]
      · rcases hurl : env.remoteUrl.bind env.parseRepoUrl with _ | pr <;>
          simp [hd, h2, htok, hurl, symQueries_cons, symQueries_append,
            symQueries_cherryPickAll, symQueries_nil]
    · simp [hd, h2, symQueries_cons, symQueries_append,
        symQueries_cherryPickAll, symQueries_nil]

/-- Display events are not publish events. -/
theorem filter_publish_map_display (l : List CommitRecord) :
    ((l.map (fun c => Event.display c.hash c.message)).filter isPublishEvent) = [] := by
  induction l with
  | nil => rfl
  | cons c cs ih => simp [List.filter, isPublishEvent, ih]

/-- In dry-run mode the publication stage only displays. -/
theorem publish_filter_dryRun (env : GitEnv) (opts : CreateStagingPROptions)
    (f : String) (cs : List CommitRecord) (h : opts.dryRun = true) :
    ((publish env opts f cs).2).filter isPublishEvent = [] := by
  rw [publish_trace, h]
  simp [List.filter_append, filter_publish_map_display]

/-- The publication stage never reports an empty changeset. -/
theorem publish_ne_emptyChangeset (env : GitEnv) (opts : CreateStagingPROptions)
    (f : String) (cs : List CommitRecord) (a b : String) :
    (publish env opts f cs).1 ≠ Outcome.emptyChangeset a b := by
  unfold publish
  by_cases hd : opts.dryRun = true
  · simp [hd]
  · simp only [Bool.not_eq_true] at hd
    rcases hcp : cherryPickAll env cs with ⟨pickEvs, r⟩
    cases r with
    | some failed => simp [hd, hcp]
    | none =>
      rcases htok : env.githubToken with _ | tok
      · simp [hd, hcp, htok]
      · rcases hurl : env.remoteUrl.bind env.parseRepoUrl with _ | pr <;>
          simp [hd, hcp, htok, hurl]

/-- In dry-run mode the whole collection-and-publication stage records no
publish event. -/
theorem afterChecks_filter_dry (env : GitEnv) (opts : CreateStagingPROptions)
    (f : String) (h : opts.dryRun = true) :
    ((afterChecks env opts f).2).filter isPublishEvent = [] := by
  have hcol : ((collectB env opts opts.stagingBranch
      (branchesToProcess env opts f)).2).filter isPublishEvent = [] :=
    collectW_filter env opts opts.stagingBranch isPublishEvent
      (fun _ _ => rfl) (fun _ _ => rfl) (fun _ => rfl) _ [] []
  by_cases hl : (sortCommits env (collectB env opts opts.stagingBranch
      (branchesToProcess env opts f)).1).length = 0
  · simp [afterChecks, hl, hcol]
  · simp [afterChecks, hl, List.filter_append, hcol,
      publish_filter_dryRun env opts f _ h]

/-- Claim C6: in dry-run mode, for every input, no branch-creation,
cherry-pick, push or PR-creation call is ever made. -/
theorem C6_dry_run (env : GitEnv) (opts : CreateStagingPROptions)
    (h : opts.dryRun = true) :
    ((run env opts).2).filter isPublishEvent = [] := by
  have hres : (resolutionEvents opts).filter isPublishEvent = [] :=
    resolutionEvents_filter opts isPublishEvent rfl
  have hpre : preEvents.filter isPublishEvent = [] := rfl
  simp only [run]
  split
  · exact hres
  split
  · simp [List.filter_append, hres, isPublishEvent]
  split
  · simp [List.filter_append, hres, hpre]
  split
  · simp [List.filter_append, hres, hpre]
  split
  · simp [List.filter_append, hres, hpre]
  simp [List.filter_append, hres, hpre,
    afterChecks_filter_dry env opts (resolvedFeatureBranch env opts) h]

/-- Witness for C6: a dry run on the concrete fixture. -/
theorem C6_dry_run_witness :
    optsDry.dryRun = true ∧ ((run testEnv optsDry).2).filter isPublishEvent = [] :=
  ⟨rfl, C6_dry_run testEnv optsDry rfl⟩

/-- Claim C5: the displayed order is the exact reverse of the applied
(cherry-picked) order, and what is applied is the stored changeset in its
stored order (the display copy does not change it). -/
theorem C5_display_reverse_of_applied (env : GitEnv) (opts : CreateStagingPROptions)
    (f : String) (cs : List CommitRecord) (h1 : opts.dryRun = false)
    (h2 : ∀ c ∈ cs, env.cherryPickOk c.hash = true) :
    displayedHashes (publish env opts f cs).2 =
        (pickedHashes (publish env opts f cs).2).reverse ∧
      pickedHashes (publish env opts f cs).2 = cs.map (fun c => c.hash) := by
  have hcp := cherryPickAll_ok env cs h2
  have hd : displayedHashes (publish env opts f cs).2 =
      (cs.map (fun c => c.hash)).reverse := by
    rw [publish_trace, h1]
    rcases htok : env.githubToken with _ | tok
    · simp [displayedHashes_append, displayedHashes_map_display,
        displayedHashes_cons, hcp, displayedHashes_nil, htok, List.map_reverse,
        displayedHashes_reverse, displayedHashes_map_pick]
    · rcases hurl : env.remoteUrl.bind env.parseRepoUrl with _ | pr <;>
        simp [displayedHashes_append, displayedHashes_map_display,
          displayedHashes_cons, hcp, displayedHashes_nil, htok, hurl,
          List.map_reverse, displayedHashes_reverse, displayedHashes_map_pick]
  have hp : pickedHashes (publish env opts f cs).2 = cs.map (fun c => c.hash) := by
    rw [publish_trace, h1]
    rcases htok : env.githubToken with _ | tok
    · simp [pickedHashes_append, pickedHashes_map_display, pickedHashes_cons,
        hcp, pickedHashes_nil, pickedHashes_map_pick, htok, pickedHashes_reverse]
    · rcases hurl : env.remoteUrl.bind env.parseRepoUrl with _ | pr <;>
        simp [pickedHashes_append, pickedHashes_map_display, pickedHashes_cons,
          hcp, pickedHashes_nil, pickedHashes_map_pick, htok, hurl,
          pickedHashes_reverse]
  exact ⟨by rw [hd, hp], hp⟩

/-- Witness for C5 at a concrete changeset. -/
theorem C5_display_reverse_of_applied_witness :
    optsMain.dryRun = false ∧
      (∀ c ∈ [recA1, recB2], testEnv.cherryPickOk c.hash = true) ∧
      (displayedHashes (publish testEnv optsMain "feat/x" [recA1, recB2]).2 =
          (pickedHashes (publish testEnv optsMain "feat/x" [recA1, recB2]).2).reverse ∧
        pickedHashes (publish testEnv optsMain "feat/x" [recA1, recB2]).2 =
          [recA1, recB2].map (fun c => c.hash)) :=
  ⟨rfl, by decide,
    C5_display_reverse_of_applied testEnv optsMain "feat/x" [recA1, recB2] rfl
      (by decide)⟩

/-- The collector's commits, via `addUnique` over the concatenated
per-branch results. -/
theorem collectB_commits (env : GitEnv) (opts : CreateStagingPROptions)
    (staging : String) (bs : List String) :
    (collectB env opts staging bs).1 =
      (addUnique [] [] (gatheredCommits env opts staging bs)).1 :=
  congrArg Prod.fst (collectW_commits env opts staging bs [] [])

/-- The collector's two-dot queries in the raw path, one per branch. -/
theorem collectB_logQueries_raw (env : GitEnv) (opts : CreateStagingPROptions)
    (staging : String) (bs : List String) (h : rawPath opts = true) :
    logQueries (collectB env opts staging bs).2 =
      bs.map (fun b => ("origin/" ++ staging, "origin/" ++ b)) :=
  collectW_logQueries_raw env opts staging h bs [] []

/-- The raw path issues no symmetric query. -/
theorem collectB_symQueries_raw (env : GitEnv) (opts : CreateStagingPROptions)
    (staging : String) (bs : List String) (h : rawPath opts = true) :
    symQueries (collectB env opts staging bs).2 = [] :=
  collectW_symQueries_raw env opts staging h bs [] []

/-- The collector's symmetric queries in the structured path, one per
branch. -/
theorem collectB_symQueries_structured (env : GitEnv)
    (opts : CreateStagingPROptions) (staging : String) (bs : List String)
    (h : rawPath opts = false) :
    symQueries (collectB env opts staging bs).2 =
      bs.map (fun b => ("origin/" ++ staging, "origin/" ++ b)) :=
  collectW_symQueries_structured env opts staging h bs [] []

/-- The structured path issues no two-dot query. -/
theorem collectB_logQueries_structured (env : GitEnv)
    (opts : CreateStagingPROptions) (staging : String) (bs : List String)
    (h : rawPath opts = false) :
    logQueries (collectB env opts staging bs).2 = [] :=
  collectW_logQueries_structured env opts staging h bs [] []

/-- The trace of the collection-and-publication stage. -/
theorem afterChecks_trace (env : GitEnv) (opts : CreateStagingPROptions)
    (f : String) :
    (afterChecks env opts f).2 =
      (collectB env opts opts.stagingBranch (branchesToProcess env opts f)).2 ++
        (if (sortCommits env (collectB env opts opts.stagingBranch
              (branchesToProcess env opts f)).1).length = 0
          then []
          else (publish env opts f (sortCommits env (collectB env opts
            opts.stagingBranch (branchesToProcess env opts f)).1)).2) := by
  by_cases hl : (sortCommits env (collectB env opts opts.stagingBranch
      (branchesToProcess env opts f)).1).length = 0 <;>
    simp [afterChecks, hl]

/-- The outcome of the collection-and-publication stage. -/
theorem afterChecks_outcome (env : GitEnv) (opts : CreateStagingPROptions)
    (f : String) :
    (afterChecks env opts f).1 =
      if (sortCommits env (collectB env opts opts.stagingBranch
            (branchesToProcess env opts f)).1).length = 0
        then Outcome.emptyChangeset f opts.stagingBranch
        else (publish env opts f (sortCommits env (collectB env opts
          opts.stagingBranch (branchesToProcess env opts f)).1)).1 := by
  by_cases hl : (sortCommits env (collectB env opts opts.stagingBranch
      (branchesToProcess env opts f)).1).length = 0 <;>
    simp [afterChecks, hl]

/-- The sorted collector output of a passing run is the run's Changeset. -/
theorem sort_collectB_eq_changeset (env : GitEnv) (opts : CreateStagingPROptions) :
    sortCommits env (collectB env opts opts.stagingBranch
        (branchesToProcess env opts (resolvedFeatureBranch env opts))).1 =
      changesetOf env opts := by
  rw [collectB_commits]; rfl

/-- The collection-and-publication trace's two-dot queries are exactly
the collector's. -/
theorem afterChecks_logQueries (env : GitEnv) (opts : CreateStagingPROptions)
    (f : String) :
    logQueries (afterChecks env opts f).2 =
      logQueries (collectB env opts opts.stagingBranch
        (branchesToProcess env opts f)).2 := by
  rw [afterChecks_trace, logQueries_append]
  have htail : logQueries
      (if (sortCommits env (collectB env opts opts.stagingBranch
            (branchesToProcess env opts f)).1).length = 0
        then []
        else (publish env opts f (sortCommits env (collectB env opts
          opts.stagingBranch (branchesToProcess env opts f)).1)).2) = [] := by
    split
    · rfl
    · exact publish_logQueries env opts _ _
  rw [htail, List.append_nil]

/-- The collection-and-publication trace's symmetric queries are exactly
the collector's. -/
theorem afterChecks_symQueries (env : GitEnv) (opts : CreateStagingPROptions)
    (f : String) :
    symQueries (afterChecks env opts f).2 =
      symQueries (collectB env opts opts.stagingBranch
        (branchesToProcess env opts f)).2 := by
  rw [afterChecks_trace, symQueries_append]
  have htail : symQueries
      (if (sortCommits env (collectB env opts opts.stagingBranch
            (branchesToProcess env opts f)).1).length = 0
        then []
        else (publish env opts f (sortCommits env (collectB env opts
          opts.stagingBranch (branchesToProcess env opts f)).1)).2) = [] := by
    split
    · rfl
    · exact publish_symQueries env opts _ _
  rw [htail, List.append_nil]

/-- A passing run's two-dot queries are exactly the collector's. -/
theorem run_logQueries (env : GitEnv) (opts : CreateStagingPROptions)
    (h : frontOK env opts = true) :
    logQueries (run env opts).2 =
      logQueries (collectB env opts opts.stagingBranch
        (branchesToProcess env opts (resolvedFeatureBranch env opts))).2 := by
  rw [run_of_frontOK env opts h]
  have hres : logQueries (resolutionEvents opts) = [] := by
    unfold resolutionEvents; split <;> rfl
  have hpre : logQueries preEvents = [] := rfl
  rw [logQueries_append, logQueries_append, hres, hpre,
    afterChecks_logQueries]
  simp

/-- A passing run's symmetric queries are exactly the collector's. -/
theorem run_symQueries (env : GitEnv) (opts : CreateStagingPROptions)
    (h : frontOK env opts = true) :
    symQueries (run env opts).2 =
      symQueries (collectB env opts opts.stagingBranch
        (branchesToProcess env opts (resolvedFeatureBranch env opts))).2 := by
  rw [run_of_frontOK env opts h]
  have hres : symQueries (resolutionEvents opts) = [] := by
    unfold resolutionEvents; split <;> rfl
  have hpre : symQueries preEvents = [] := rfl
  rw [symQueries_append, symQueries_append, hres, hpre,
    afterChecks_symQueries]
  simp

/-- Counterexample to C3 as stated: with `--include-merges` (and no
`--first-parent`) the collector takes the structured `git.log({from, to})`
path, and simple-git's `symmetric` default makes that the three-dot
`origin/staging...origin/feat/x` — the run issues no two-dot query for
the branch, and the collected commits are the symmetric-range result,
which here includes the staging-only commit `s9` and so differs from the
two-dot range's content. -/
theorem C3_counterexample :
    rawPath optsMerges = false ∧
      (collectB testEnv optsMerges "staging" ["feat/x"]).1 =
        [gc2, gc1, gcS].map (structuredRecord "feat/x") ∧
      (testEnv.logRange "origin/staging" "origin/feat/x" false false).toOption =
        some [gc2, gc1] ∧
      (collectB testEnv optsMerges "staging" ["feat/x"]).1 ≠
        [gc2, gc1].map (structuredRecord "feat/x") ∧
      symQueries (collectB testEnv optsMerges "staging" ["feat/x"]).2 =
        [("origin/staging", "origin/feat/x")] ∧
      logQueries (collectB testEnv optsMerges "staging" ["feat/x"]).2 = [] := by
  decide

/-- C3 as amended: in the default collection path (merges excluded or
first-parent set — every default invocation) each branch is queried with
its own two-dot range `origin/<staging>..origin/<branch>`, one query per
branch in order and never one multi-branch range; with `--include-merges`
and no `--first-parent` the per-branch query is instead simple-git's
default *symmetric* three-dot range `origin/<staging>...origin/<branch>`
(which can also return commits reachable only from staging); in both
paths the collected commits are the dedup-merge of the per-branch
results in processing order. -/
theorem C3_amended_per_branch_ranges (env : GitEnv)
    (opts : CreateStagingPROptions) (h : frontOK env opts = true) :
    (rawPath opts = true →
      logQueries (run env opts).2 =
          (branchesToProcess env opts (resolvedFeatureBranch env opts)).map
            (fun b => ("origin/" ++ opts.stagingBranch, "origin/" ++ b)) ∧
        symQueries (run env opts).2 = []) ∧
      (rawPath opts = false →
        symQueries (run env opts).2 =
            (branchesToProcess env opts (resolvedFeatureBranch env opts)).map
              (fun b => ("origin/" ++ opts.stagingBranch, "origin/" ++ b)) ∧
          logQueries (run env opts).2 = []) ∧
      (collectB env opts opts.stagingBranch
          (branchesToProcess env opts (resolvedFeatureBranch env opts))).1 =
        (addUnique [] []
          (gatheredCommits env opts opts.stagingBranch
            (branchesToProcess env opts (resolvedFeatureBranch env opts)))).1 := by
  refine ⟨?_, ?_, collectB_commits env opts opts.stagingBranch _⟩
  · intro hraw
    constructor
    · rw [run_logQueries env opts h, collectB_logQueries_raw env opts _ _ hraw]
    · rw [run_symQueries env opts h, collectB_symQueries_raw env opts _ _ hraw]
  · intro hstr
    constructor
    · rw [run_symQueries env opts h,
        collectB_symQueries_structured env opts _ _ hstr]
    · rw [run_logQueries env opts h,
        collectB_logQueries_structured env opts _ _ hstr]

/-- Witness for the amended C3 on the concrete fixture (raw path). -/
theorem C3_amended_per_branch_ranges_witness :
    frontOK testEnv optsBranches = true ∧
      ((rawPath optsBranches = true →
        logQueries (run testEnv optsBranches).2 =
            (branchesToProcess testEnv optsBranches
                (resolvedFeatureBranch testEnv optsBranches)).map
              (fun b => ("origin/" ++ optsBranches.stagingBranch, "origin/" ++ b)) ∧
          symQueries (run testEnv optsBranches).2 = []) ∧
        (rawPath optsBranches = false →
          symQueries (run testEnv optsBranches).2 =
              (branchesToProcess testEnv optsBranches
                  (resolvedFeatureBranch testEnv optsBranches)).map
                (fun b => ("origin/" ++ optsBranches.stagingBranch, "origin/" ++ b)) ∧
            logQueries (run testEnv optsBranches).2 = []) ∧
        (collectB testEnv optsBranches optsBranches.stagingBranch
            (branchesToProcess testEnv optsBranches
              (resolvedFeatureBranch testEnv optsBranches))).1 =
          (addUnique [] []
            (gatheredCommits testEnv optsBranches optsBranches.stagingBranch
              (branchesToProcess testEnv optsBranches
                (resolvedFeatureBranch testEnv optsBranches)))).1) :=
  ⟨by decide, C3_amended_per_branch_ranges testEnv optsBranches (by decide)⟩

/-- Claim C4: a failing source branch only records a warning (the run
continues), the run reports an empty changeset exactly when the merged
result is empty — naming the primary feature branch and the staging
branch — and in that case no branch, cherry-pick, push or PR call is ever
made. -/
theorem C4_failure_nonfatal (env : GitEnv) (opts : CreateStagingPROptions)
    (h : frontOK env opts = true) :
    (∀ b ∈ branchesToProcess env opts (resolvedFeatureBranch env opts), ∀ e,
        branchLog env opts opts.stagingBranch b = Except.error e →
          Event.warn (warnMsg b e) ∈ (run env opts).2) ∧
      ((run env opts).1 =
          Outcome.emptyChangeset (resolvedFeatureBranch env opts)
            opts.stagingBranch ↔
        changesetOf env opts = []) ∧
      (changesetOf env opts = [] →
        ((run env opts).2).filter isPublishEvent = []) := by
  refine ⟨?_, ?_, ?_⟩
  · intro b hb e herr
    rw [run_of_frontOK env opts h, afterChecks_trace]
    have hw : Event.warn (warnMsg b e) ∈
        (collectB env opts opts.stagingBranch
          (branchesToProcess env opts (resolvedFeatureBranch env opts))).2 :=
      collectW_warn env opts opts.stagingBranch _ [] [] b e hb herr
    simp only [List.mem_append]
    exact Or.inr (Or.inl hw)
  · rw [run_of_frontOK env opts h]
    simp only []
    rw [afterChecks_outcome, sort_collectB_eq_changeset]
    by_cases hl : (changesetOf env opts).length = 0
    · rw [if_pos hl]
      exact iff_of_true rfl (List.length_eq_zero.mp hl)
    · rw [if_neg hl]
      refine iff_of_false (publish_ne_emptyChangeset env opts _ _ _ _) ?_
      intro hc
      exact hl (by rw [hc]; rfl)
  · intro hc
    rw [run_of_frontOK env opts h, afterChecks_trace, sort_collectB_eq_changeset]
    have hlen : (changesetOf env opts).length = 0 := by rw [hc]; rfl
    rw [if_pos hlen]
    have hres : (resolutionEvents opts).filter isPublishEvent = [] :=
      resolutionEvents_filter opts isPublishEvent rfl
    have hcol : ((collectB env opts opts.stagingBranch
        (branchesToProcess env opts (resolvedFeatureBranch env opts))).2).filter
          isPublishEvent = [] :=
      collectW_filter env opts opts.stagingBranch isPublishEvent
        (fun _ _ => rfl) (fun _ _ => rfl) (fun _ => rfl) _ [] []
    simp [List.filter_append, hres, hcol, preEvents, isPublishEvent]

/-- Witness for C4 on the concrete fixture, whose branch list contains the
failing branch `nosuch`. -/
theorem C4_failure_nonfatal_witness :
    frontOK testEnv optsBranches = true ∧
      ((∀ b ∈ branchesToProcess testEnv optsBranches
            (resolvedFeatureBranch testEnv optsBranches), ∀ e,
          branchLog testEnv optsBranches optsBranches.stagingBranch b =
              Except.error e →
            Event.warn (warnMsg b e) ∈ (run testEnv optsBranches).2) ∧
        ((run testEnv optsBranches).1 =
            Outcome.emptyChangeset (resolvedFeatureBranch testEnv optsBranches)
              optsBranches.stagingBranch ↔
          changesetOf testEnv optsBranches = []) ∧
        (changesetOf testEnv optsBranches = [] →
          ((run testEnv optsBranches).2).filter isPublishEvent = [])) :=
  ⟨by decide, C4_failure_nonfatal testEnv optsBranches (by decide)⟩

/-- The dedup loop keeps the accumulated hash list duplicate-free. -/
theorem addUnique_nodup :
    ∀ (l : List CommitRecord) (acc : List CommitRecord) (seen : List String),
      seen = acc.map (fun c => c.hash) → seen.Nodup →
      (((addUnique acc seen l).1).map (fun c => c.hash)).Nodup := by
  intro l
  induction l with
  | nil =>
    intro acc seen hseen hnd
    rw [addUnique]
    rw [hseen] at hnd
    exact hnd
  | cons c cs ih =>
    intro acc seen hseen hnd
    by_cases hmem : c.hash ∈ seen
    · simp only [addUnique, List.elem_eq_mem, hmem, decide_true_eq_true,
        decide_True, if_true]
      exact ih acc seen hseen hnd
    · have hc : (seen.contains c.hash) = false := by
        simp [List.elem_eq_mem, hmem]
      simp only [addUnique, hc, Bool.false_eq_true, if_false]
      refine ih (acc ++ [c]) (seen ++ [c.hash]) ?_ ?_
      · rw [hseen, List.map_append]; rfl
      · simp [List.nodup_append, hnd, hmem]

/-- Each record the dedup loop keeps is the first record of the input
stream with its hash, `acc`-part included. -/
theorem addUnique_find :
    ∀ (l : List CommitRecord) (acc : List CommitRecord) (seen : List String),
      seen = acc.map (fun c => c.hash) →
      (∀ c ∈ acc, acc.find? (fun d => d.hash == c.hash) = some c) →
      ∀ c ∈ (addUnique acc seen l).1,
        (acc ++ l).find? (fun d => d.hash == c.hash) = some c := by
  intro l
  induction l with
  | nil =>
    intro acc seen hseen hfind c hc
    rw [addUnique] at hc
    rw [List.append_nil]
    exact hfind c hc
  | cons c cs ih =>
    intro acc seen hseen hfind x hx
    by_cases hmem : c.hash ∈ seen
    · have hc : (seen.contains c.hash) = true := by
        simp [List.elem_eq_mem, hmem]
      simp only [addUnique, hc, if_true] at hx
      have hih := ih acc seen hseen hfind x hx
      rw [List.find?_append] at hih ⊢
      cases hacc : acc.find? (fun d => d.hash == x.hash) with
      | some y => rw [hacc] at hih; simpa [hacc] using hih
      | none =>
        rw [hacc] at hih
        simp only [Option.none_or] at hih ⊢
        have hpc : (c.hash == x.hash) = false := by
          by_contra hne
          have hcx : c.hash = x.hash := by
            cases hb : c.hash == x.hash
            · exact absurd hb hne
            · exact eq_of_beq hb
          rw [hseen] at hmem
          rcases List.mem_map.mp hmem with ⟨a, ha, hah⟩
          have := List.find?_eq_none.mp hacc a ha
          simp only [beq_iff_eq] at this
          exact this (hah.trans hcx)
        simpa [List.find?_cons, hpc] using hih
    · have hc : (seen.contains c.hash) = false := by
        simp [List.elem_eq_mem, hmem]
      simp only [addUnique, hc, Bool.false_eq_true, if_false] at hx
      have hseen' : seen ++ [c.hash] = (acc ++ [c]).map (fun d => d.hash) := by
        rw [hseen, List.map_append]; rfl
      have hfind' : ∀ y ∈ acc ++ [c],
          (acc ++ [c]).find? (fun d => d.hash == y.hash) = some y := by
        intro y hy
        rcases List.mem_append.mp hy with hy | hy
        · rw [List.find?_append, hfind y hy]; rfl
        · rcases List.mem_singleton.mp hy with rfl
          have hn : acc.find? (fun d => d.hash == y.hash) = none := by
            refine List.find?_eq_none.mpr ?_
            intro a ha hba
            have hah : a.hash = y.hash := eq_of_beq hba
            rw [hseen] at hmem
            exact hmem (List.mem_map.mpr ⟨a, ha, hah⟩)
          rw [List.find?_append, hn]
          simp [List.find?_cons]
      have hih := ih (acc ++ [c]) (seen ++ [c.hash]) hseen' hfind' x hx
      rw [List.append_assoc, List.singleton_append] at hih
      exact hih

/-- Claim C1: the final Changeset holds each hash at most once, and the
record kept for a hash (its branch tag included) is the first record with
that hash in the concatenated per-branch processing stream. -/
theorem C1_dedup_first_seen (env : GitEnv) (opts : CreateStagingPROptions) :
    (((changesetOf env opts).map (fun c => c.hash)).Nodup) ∧
      ∀ c ∈ changesetOf env opts,
        (gatheredCommits env opts opts.stagingBranch
            (branchesToProcess env opts (resolvedFeatureBranch env opts))).find?
          (fun d => d.hash == c.hash) = some c := by
  constructor
  · have hnd := addUnique_nodup
      (gatheredCommits env opts opts.stagingBranch
        (branchesToProcess env opts (resolvedFeatureBranch env opts)))
      [] [] rfl List.nodup_nil
    have hperm : List.Perm ((changesetOf env opts).map (fun c => c.hash))
        ((mergedCommits env opts).map (fun c => c.hash)) :=
      (List.mergeSort_perm (mergedCommits env opts) _).map (fun c => c.hash)
    exact hperm.nodup_iff.mpr hnd
  · intro c hc
    have hc' : c ∈ mergedCommits env opts :=
      (List.mergeSort_perm (mergedCommits env opts) _).mem_iff.mp hc
    have hfind := addUnique_find
      (gatheredCommits env opts opts.stagingBranch
        (branchesToProcess env opts (resolvedFeatureBranch env opts)))
      [] [] rfl (by intro d hd; cases hd) c hc'
    simpa using hfind

/-- Witness for C1: the shared commit `a1` appears once, tagged with the
first branch that yielded it. -/
theorem C1_dedup_first_seen_witness :
    recA1 ∈ changesetOf testEnv optsBranches ∧
      (gatheredCommits testEnv optsBranches optsBranches.stagingBranch
          (branchesToProcess testEnv optsBranches
            (resolvedFeatureBranch testEnv optsBranches))).find?
        (fun d => d.hash == recA1.hash) = some recA1 := by
  have hm : recA1 ∈ changesetOf testEnv optsBranches :=
    (List.mergeSort_perm (mergedCommits testEnv optsBranches) _).mem_iff.mpr
      (by decide)
  exact ⟨hm, (C1_dedup_first_seen testEnv optsBranches).2 recA1 hm⟩

/-- Claim C2: the Changeset is the merged list sorted ascending by the
parsed authored timestamp, and the sort is stable: for every key value,
the records with that key appear in the Changeset exactly in their merged
(insertion) order.  Determinism is immediate: `changesetOf` is a function
of the environment and options alone. -/
theorem C2_sorted_stable (env : GitEnv) (opts : CreateStagingPROptions) :
    (changesetOf env opts).Pairwise
        (fun a b => sortKey env a ≤ sortKey env b) ∧
      ∀ k : Int,
        (changesetOf env opts).filter (fun c => sortKey env c == k) =
          (mergedCommits env opts).filter (fun c => sortKey env c == k) := by
  constructor
  · have h := List.sorted_mergeSort (sortLe_trans env) (sortLe_total env)
      (mergedCommits env opts)
    exact h.imp (fun hab => by simpa using hab)
  · intro k
    have hpair : ((mergedCommits env opts).filter
        (fun c => sortKey env c == k)).Pairwise
          (fun a b => (decide (sortKey env a ≤ sortKey env b)) = true) := by
      apply List.pairwise_of_forall_mem_list
      intro a ha b hb
      have ha' : sortKey env a = k := by
        have := List.of_mem_filter ha
        simpa [beq_iff_eq] using this
      have hb' : sortKey env b = k := by
        have := List.of_mem_filter hb
        simpa [beq_iff_eq] using this
      simp [ha', hb']
    have hsub : List.Sublist
        ((mergedCommits env opts).filter (fun c => sortKey env c == k))
        (changesetOf env opts) :=
      List.sublist_mergeSort (sortLe_trans env) (sortLe_total env) hpair
        (List.filter_sublist _)
    have hsub2 : List.Sublist
        ((mergedCommits env opts).filter (fun c => sortKey env c == k))
        ((changesetOf env opts).filter (fun c => sortKey env c == k)) := by
      have h2 := hsub.filter (fun c => sortKey env c == k)
      rwa [List.filter_filter,
        show (fun c => (sortKey env c == k) && (sortKey env c == k)) =
            (fun c => sortKey env c == k) from
          funext (fun c => Bool.and_self _)] at h2
    have hlen : ((changesetOf env opts).filter
        (fun c => sortKey env c == k)).length =
        ((mergedCommits env opts).filter (fun c => sortKey env c == k)).length :=
      ((List.mergeSort_perm (mergedCommits env opts) _).filter _).length_eq
    exact (hsub2.eq_of_length hlen.symm).symm

/-- Splitting a separator-free char list yields one field. -/
theorem splitListChar_of_not_mem {sep : Char} :
    ∀ {a : List Char}, sep ∉ a → splitListChar sep a = [a] := by
  intro a
  induction a with
  | nil => intro _; rfl
  | cons c cs ih =>
    intro h
    have hc : ¬ c = sep := fun hce => h (hce ▸ List.mem_cons_self c cs)
    have hcs : sep ∉ cs := fun hm => h (List.mem_cons_of_mem c hm)
    rw [splitListChar, if_neg hc, ih hcs]

/-- Splitting peels off the first separator-free field. -/
theorem splitListChar_append (sep : Char) :
    ∀ (a b : List Char), sep ∉ a →
      splitListChar sep (a ++ sep :: b) = a :: splitListChar sep b := by
  intro a
  induction a with
  | nil => intro b _; rw [List.nil_append, splitListChar, if_pos rfl]
  | cons c cs ih =>
    intro b h
    have hc : ¬ c = sep := fun hce => h (hce ▸ List.mem_cons_self c cs)
    have hcs : sep ∉ cs := fun hm => h (List.mem_cons_of_mem c hm)
    rw [List.cons_append, splitListChar, if_neg hc, ih b hcs]

/-- Claim C10: in the raw-format path (taken whenever merges are excluded
or first-parent is set — every default invocation), a commit whose
subject contains a `|` is parsed shifted: the stored message is the
subject truncated at the first `|`, the text after it lands in the author
field, the real author lands in the date field, the real date in the refs
field — so the sort key of that record is the date-parse of the author
name, not of the authored date. -/
theorem C10_pipe_in_subject (env : GitEnv) (b : String) (c : GitCommit)
    (s₁ s₂ : String) (hsub : c.subject = s₁ ++ "|" ++ s₂)
    (hh : '|' ∉ c.hash.data) (h1 : '|' ∉ s₁.data) (h2 : '|' ∉ s₂.data)
    (ha : '|' ∉ c.author.data) (hd : '|' ∉ c.date.data)
    (hr : '|' ∉ c.refs.data) (hne : c.author ≠ "") :
    (parseLine b (formatLine c)).message = s₁ ∧
      (parseLine b (formatLine c)).message ≠ c.subject ∧
      (parseLine b (formatLine c)).author_name = s₂ ∧
      (parseLine b (formatLine c)).date = c.author ∧
      (parseLine b (formatLine c)).refs = c.date ∧
      sortKey env (parseLine b (formatLine c)) = env.dateVal c.author ∧
      ∀ opts : CreateStagingPROptions,
        opts.includeMerges = false ∨ opts.firstParent = true →
          rawPath opts = true := by
  have hpipe : ("|" : String).data = ['|'] := rfl
  have hdata : (formatLine c).data =
      c.hash.data ++ '|' :: (s₁.data ++ '|' :: (s₂.data ++ '|' ::
        (c.author.data ++ '|' :: (c.date.data ++ '|' :: c.refs.data)))) := by
    simp [formatLine, hsub, String.data_append, hpipe, List.append_assoc]
  have hparts : jsSplit '|' (formatLine c) =
      [c.hash, s₁, s₂, c.author, c.date, c.refs] := by
    unfold jsSplit
    rw [hdata, splitListChar_append '|' _ _ hh, splitListChar_append '|' _ _ h1,
      splitListChar_append '|' _ _ h2, splitListChar_append '|' _ _ ha,
      splitListChar_append '|' _ _ hd, splitListChar_of_not_mem hr]
    rfl
  have hrec : parseLine b (formatLine c) =
      { hash := c.hash, message := s₁, author_name := s₂, date := c.author
      , refs := c.date, branch := b } := by
    unfold parseLine
    rw [hparts]
    rfl
  refine ⟨by rw [hrec], ?_, by rw [hrec], by rw [hrec], by rw [hrec], ?_, ?_⟩
  · rw [hrec, hsub]
    intro heq
    have hlen := congrArg (fun s => s.data.length) heq
    simp [String.data_append, hpipe] at hlen
  · rw [hrec]
    simp [sortKey, hne]
  · intro opts hopt
    rcases hopt with h | h <;> simp [rawPath, h]

/-- Witness for C10: the subject `fix: a|b` comes back truncated with the
author name in the date slot. -/
theorem C10_pipe_in_subject_witness :
    (("fix: a|b" : String) = "fix: a" ++ "|" ++ "b") ∧
      ((parseLine "feat/x"
          (formatLine { hash := "abc", subject := "fix: a|b", author := "Alice"
                      , date := "2024-01-02", refs := "" })).message = "fix: a" ∧
        (parseLine "feat/x"
          (formatLine { hash := "abc", subject := "fix: a|b", author := "Alice"
                      , date := "2024-01-02", refs := "" })).message ≠ "fix: a|b" ∧
        (parseLine "feat/x"
          (formatLine { hash := "abc", subject := "fix: a|b", author := "Alice"
                      , date := "2024-01-02", refs := "" })).author_name = "b" ∧
        (parseLine "feat/x"
          (formatLine { hash := "abc", subject := "fix: a|b", author := "Alice"
                      , date := "2024-01-02", refs := "" })).date = "Alice" ∧
        (parseLine "feat/x"
          (formatLine { hash := "abc", subject := "fix: a|b", author := "Alice"
                      , date := "2024-01-02", refs := "" })).refs = "2024-01-02" ∧
        sortKey testEnv (parseLine "feat/x"
          (formatLine { hash := "abc", subject := "fix: a|b", author := "Alice"
                      , date := "2024-01-02", refs := "" })) =
          testEnv.dateVal "Alice" ∧
        ∀ opts : CreateStagingPROptions,
          opts.includeMerges = false ∨ opts.firstParent = true →
            rawPath opts = true) := by
  refine ⟨by decide, ?_⟩
  have h := C10_pipe_in_subject testEnv "feat/x"
    { hash := "abc", subject := "fix: a|b", author := "Alice"
    , date := "2024-01-02", refs := "" } "fix: a" "b"
    (by decide) (by decide) (by decide) (by decide) (by decide) (by decide)
    (by decide) (by decide)
  exact h

/-- Counterexample to C8 as stated: with a feature branch holding two
slashes, only the first `/` is replaced — JS `replace` with a string
pattern replaces one occurrence — so the created branch name still holds
a `/` and differs from the fully sanitized name. -/
theorem C8_counterexample :
    stagingPRBranch testEnv "feat/a/b" = "staging-pr-feat-a/b-17" ∧
      '/' ∈ (stagingPRBranch testEnv "feat/a/b").data ∧
      stagingPRBranch testEnv "feat/a/b" ≠ "staging-pr-feat-a-b-17" := by
  decide

/-- C8 as amended: the created branch name is the deterministic prefix,
then the feature-branch name with its *first* `/` replaced by `-`, then
the creation timestamp; runs whose timestamps print differently get
distinct names. -/
theorem C8_amended_name_shape (env env' : GitEnv) (f : String)
    (h : toString env.now ≠ toString env'.now) :
    stagingPRBranch env f =
        "staging-pr-" ++ jsReplaceFirst f "/" "-" ++ "-" ++ toString env.now ∧
      stagingPRBranch env f ≠ stagingPRBranch env' f := by
  refine ⟨rfl, ?_⟩
  intro he
  apply h
  have hdata := congrArg String.data he
  simp only [stagingPRBranch, String.data_append] at hdata
  exact String.ext (List.append_cancel_left hdata)

/-- Witness for the amended C8 at two concrete clocks. -/
theorem C8_amended_name_shape_witness :
    (toString testEnv.now ≠ toString envNow18.now) ∧
      (stagingPRBranch testEnv "feat/a/b" =
          "staging-pr-" ++ jsReplaceFirst "feat/a/b" "/" "-" ++ "-" ++
            toString testEnv.now ∧
        stagingPRBranch testEnv "feat/a/b" ≠ stagingPRBranch envNow18 "feat/a/b") :=
  ⟨by decide, C8_amended_name_shape testEnv envNow18 "feat/a/b" (by decide)⟩

/-- Counterexample to C9 as stated: with `--branches "branchA, branchB"`
and `--feature-branch branchC` supplied together, the primary feature
branch stays `branchC` — the list's first entry does not become the
primary. -/
theorem C9_counterexample :
    resolvedFeatureBranch testEnv optsBoth = "branchC" ∧
      (splitTrim "branchA, branchB").headD "" = "branchA" ∧
      resolvedFeatureBranch testEnv optsBoth ≠ "branchA" := by
  decide

/-- C9 as amended: an explicit list is used verbatim (entries trimmed)
and decides the processed branches over all other inputs; its first entry
becomes the primary feature branch only when no feature-branch option is
supplied, while a supplied feature-branch option stays the primary. -/
theorem C9_amended_explicit_list (env : GitEnv) (opts : CreateStagingPROptions)
    (bs : String) (hbs : truthy opts.branches = some bs) :
    branchesToProcess env opts (resolvedFeatureBranch env opts) = splitTrim bs ∧
      (truthy opts.featureBranch = none →
        resolvedFeatureBranch env opts = (splitTrim bs).headD "") ∧
      ∀ f, truthy opts.featureBranch = some f →
        resolvedFeatureBranch env opts = f := by
  refine ⟨?_, ?_, ?_⟩
  · simp [branchesToProcess, hbs]
  · intro hf
    simp [resolvedFeatureBranch, hbs, hf]
  · intro f hf
    simp [resolvedFeatureBranch, hbs, hf]

/-- Witness for the amended C9 on the concrete explicit-list options. -/
theorem C9_amended_explicit_list_witness :
    truthy optsBranches.branches = some "feat/x, feat/y, nosuch" ∧
      (branchesToProcess testEnv optsBranches
          (resolvedFeatureBranch testEnv optsBranches) =
            splitTrim "feat/x, feat/y, nosuch" ∧
        (truthy optsBranches.featureBranch = none →
          resolvedFeatureBranch testEnv optsBranches =
            (splitTrim "feat/x, feat/y, nosuch").headD "") ∧
        ∀ f, truthy optsBranches.featureBranch = some f →
          resolvedFeatureBranch testEnv optsBranches = f) :=
  ⟨by decide, C9_amended_explicit_list testEnv optsBranches _ (by decide)⟩
